import Mathlib

/-!
Verification of the forecast-payload normalizer of `twenty7-forecast`
(`src/frontend/src/utils/normalize.js` and
`src/frontend/src/utils/extractForecast.js`).

The JavaScript code is shallowly embedded: JSON values become the inductive
type `Json`, JS numbers are modelled as exact rationals `ℚ`, and absent
(`undefined`) values are `Option.none`.  Rational arithmetic is written with
`Rat.divInt` / `Int.fdiv` (which the kernel evaluates) and bridged to the
usual field operations by lemmas.  Modelling notes:

* Numeric string parsing (`toNum`) models plain decimal literals with an
  optional sign; the exotic JS forms (hexadecimal, exponents) are treated as
  unparseable, and array-to-string coercion is treated as unparseable.
* Date parsing (`toISO`) models the ISO forms `YYYY-MM-DD` (parsed as UTC
  midnight, as in ECMAScript) and `YYYY-MM-DDTHH:MM:SS.mmmZ`; other
  date-like inputs are modelled as invalid dates (null).
* `String.prototype.localeCompare` on ISO strings is modelled as
  code-unit lexicographic comparison.
* `Array.prototype.sort` (stable, as required by ECMAScript) is modelled by
  a stable insertion sort on the boolean preorder `comparator(a,b) <= 0`.
* The `WeakMap` memo cache in `normalize.js` is keyed on reference identity
  and is a pure performance hint; it is modelled as absent.
* `dayjs(iso).format("MMM D")` is modelled as UTC month-name/day formatting.
-/

namespace Forecast

/-- JSON values (the input domain of `normalize`). `null` also stands for
the JS `null`; an absent property / `undefined` is `Option.none` at use
sites. -/
inductive Json where
  | null : Json
  | bool : Bool → Json
  | num : ℚ → Json
  | str : String → Json
  | arr : List Json → Json
  | obj : List (String × Json) → Json

/-- JS truthiness of a value (`NaN` cannot arise: all modelled numbers are
finite rationals). -/
def truthy : Json → Bool
  | .null => false
  | .bool b => b
  | .num q => q != 0
  | .str s => s ≠ ""
  | .arr _ => true
  | .obj _ => true

/-- Property access `o[k]`: `none` models JS `undefined` (absent property or
non-object receiver). -/
def getField : Json → String → Option Json
  | .obj fs, k => (fs.find? (fun p => p.1 == k)).map (·.2)
  | _, _ => none

/-- Property access with `undefined` collapsed to `null` (for positions where
the source only tests truthiness or stores the value). -/
def jsGet (j : Json) (k : String) : Json := (getField j k).getD .null

/-- The JS nullish-coalescing step: a property read used in a `??` chain
yields a value only when it is present and non-null. -/
def getNV (j : Json) (k : String) : Option Json :=
  match getField j k with
  | some .null => none
  | some v => some v
  | none => none

/-- An alias chain `d?.k1 ?? d?.k2 ?? ...` over source property names. -/
def firstNV (j : Json) : List String → Option Json
  | [] => none
  | k :: ks =>
    match getNV j k with
    | some v => some v
    | none => firstNV j ks

/-- The coalescing `a ?? b` on possibly-`undefined` values. -/
def jsCoalesce (a b : Option Json) : Option Json :=
  match a with
  | some .null => b
  | none => b
  | some v => some v

/-- The disjunction `a || b` on values (truthiness-based). -/
def jsOrV (a b : Json) : Json := if truthy a then a else b

/-! ### Numbers

`toNum` from both source files:
```js
const toNum = (v) => {
  if (v == null || v === "") return null;
  if (typeof v === "number") return Number.isFinite(v) ? v : null;
  const n = +String(v).replace(/,/g, "");
  return Number.isFinite(n) ? n : null;
};
```
-/

/-- Powers `10 ^ k` on integers, by structural recursion (kernel-evaluable). -/
def tenPow : ℕ → ℤ
  | 0 => 1
  | n + 1 => 10 * tenPow n

/-- Decimal digits to a natural number (`parseInt`-style, base 10). -/
def digitsToNat (acc : ℕ) : List Char → ℕ
  | [] => acc
  | c :: cs => digitsToNat (acc * 10 + (c.toNat - '0'.toNat)) cs

def isDigitCh (c : Char) : Bool := '0' ≤ c && c ≤ '9'

/-- JS whitespace trimmed by string-to-number coercion. -/
def isSpaceCh (c : Char) : Bool := c == ' ' || c == '\t' || c == '\n' || c == '\r'

/-- Unsigned decimal literal: digits, optionally with a decimal point
(`"3"`, `"3."`, `".5"`, `"3.25"`). -/
def parseUnsigned (cs : List Char) : Option ℚ :=
  let intPart := cs.takeWhile isDigitCh
  let rest := cs.dropWhile isDigitCh
  match rest with
  | [] =>
    if intPart = [] then none
    else some (Rat.divInt (digitsToNat 0 intPart) 1)
  | '.' :: frac =>
    if frac.all isDigitCh ∧ (intPart ≠ [] ∨ frac ≠ []) then
      some (Rat.divInt (digitsToNat 0 intPart * tenPow frac.length + digitsToNat 0 frac)
                       (tenPow frac.length))
    else none
  | _ => none

/-- String-to-number coercion `+s` (after comma removal), restricted to plain
decimal literals; `""` and whitespace-only coerce to `0`. -/
def strToNum (s : String) : Option ℚ :=
  let cs := ((s.toList.filter (fun c => c ≠ ',')).dropWhile isSpaceCh).reverse.dropWhile isSpaceCh |>.reverse
  match cs with
  | [] => some 0
  | '+' :: rest => parseUnsigned rest
  | '-' :: rest => (parseUnsigned rest).map Neg.neg
  | _ => parseUnsigned cs

/-- The source `toNum` on a possibly-`undefined` JS value. -/
def toNum : Option Json → Option ℚ
  | none => none
  | some .null => none
  | some (.num q) => some q
  | some (.str s) => if s = "" then none else strToNum s
  | some _ => none

/-- JS `Math.round`: round half toward `+∞`, i.e. `⌊q + 1/2⌋`, written with
`Int.fdiv` so that it evaluates. -/
def jsRound (q : ℚ) : ℤ := Int.fdiv (2 * q.num + q.den) (2 * q.den)

/-- Source: `const round1 = (n) => (n == null ? null : Math.round(n * 10) / 10);` -/
def round1 : Option ℚ → Option ℚ
  | none => none
  | some q => some (Rat.divInt (jsRound (Rat.divInt (q.num * 10) q.den)) 10)

/-- Source: `const clamp = (n, lo, hi) => n == null ? null : Math.min(hi, Math.max(lo, n));` -/
def clamp (n : Option ℚ) (lo hi : ℚ) : Option ℚ :=
  match n with
  | none => none
  | some q => some (min hi (max lo q))

/-- The fixed Kp→Ap lookup table
`{0:0, 1:3, 2:7, 3:15, 4:27, 5:48, 6:80, 7:140, 8:240, 9:400}` (identical in
`normalize.js` and `extractForecast.js`); indices outside the table yield
null. -/
def kpToAp (kpInt : ℤ) : Option ℚ :=
  if kpInt = 0 then some 0
  else if kpInt = 1 then some 3
  else if kpInt = 2 then some 7
  else if kpInt = 3 then some 15
  else if kpInt = 4 then some 27
  else if kpInt = 5 then some 48
  else if kpInt = 6 then some 80
  else if kpInt = 7 then some 140
  else if kpInt = 8 then some 240
  else if kpInt = 9 then some 400
  else none

/-! ### Dates

`toISO` from both source files:
```js
const toISO = (dateLike) => {
  if (!dateLike) return null;
  const d = new Date(dateLike);
  return Number.isNaN(d.getTime()) ? null : d.toISOString();
};
```
modelled on the ISO grammar stated in the header. -/

def isLeap (y : ℕ) : Bool := y % 4 = 0 && (y % 100 ≠ 0 || y % 400 = 0)

def daysInMonth (y m : ℕ) : ℕ :=
  if m = 1 then 31
  else if m = 2 then (if isLeap y then 29 else 28)
  else if m = 3 then 31
  else if m = 4 then 30
  else if m = 5 then 31
  else if m = 6 then 30
  else if m = 7 then 31
  else if m = 8 then 31
  else if m = 9 then 30
  else if m = 10 then 31
  else if m = 11 then 30
  else if m = 12 then 31
  else 0

def twoDigits (a b : Char) : Option ℕ :=
  if isDigitCh a && isDigitCh b then some (digitsToNat 0 [a, b]) else none

/-- Parse a whole character list of the form `YYYY-MM-DD` into a valid
calendar date. -/
def parseYMDList : List Char → Option (ℕ × ℕ × ℕ)
  | [y1, y2, y3, y4, '-', m1, m2, '-', d1, d2] =>
    if [y1, y2, y3, y4, m1, m2, d1, d2].all isDigitCh then
      let y := digitsToNat 0 [y1, y2, y3, y4]
      let m := digitsToNat 0 [m1, m2]
      let d := digitsToNat 0 [d1, d2]
      if 1 ≤ m ∧ m ≤ 12 ∧ 1 ≤ d ∧ d ≤ daysInMonth y m then some (y, m, d) else none
    else none
  | _ => none

/-- Parse a whole string of the form `YYYY-MM-DD` into a valid calendar
date. -/
def parseYMD (s : String) : Option (ℕ × ℕ × ℕ) := parseYMDList s.toList

/-- Whether the characters form a full `YYYY-MM-DDTHH:MM:SS.mmmZ` timestamp
(on which `new Date(s).toISOString()` is the identity). -/
def validFullISOList : List Char → Bool
  | [y1, y2, y3, y4, c1, m1, m2, c2, d1, d2, t, h1, h2, c3, i1, i2, c4, s1, s2, dot, f1, f2, f3, z] =>
    c1 == '-' && c2 == '-' && t == 'T' && c3 == ':' && c4 == ':' && dot == '.' && z == 'Z' &&
    [f1, f2, f3].all isDigitCh &&
    (match parseYMDList [y1, y2, y3, y4, '-', m1, m2, '-', d1, d2],
           twoDigits h1 h2, twoDigits i1 i2, twoDigits s1 s2 with
     | some _, some hh, some mi, some ss => hh ≤ 23 && mi ≤ 59 && ss ≤ 59
     | _, _, _, _ => false)
  | _ => false

def validFullISO (s : String) : Bool := validFullISOList s.toList

/-- Behavior of `new Date(s).toISOString()` on the modelled date grammar: a plain date is
UTC midnight of that day; a full timestamp is returned unchanged; anything
else is an invalid date. -/
def toISOString (s : String) : Option String :=
  match parseYMD s with
  | some _ => some (s ++ "T00:00:00.000Z")
  | none => if validFullISO s then some s else none

/-- Source `toISO(dateLike)`: falsy or (in the modelled grammar) non-string
date-likes are invalid. -/
def toISO (j : Json) : Option String :=
  if truthy j = false then none
  else
    match j with
    | .str s => toISOString s
    | _ => none

/-- Next calendar day (UTC), for synthesizing consecutive dates. -/
def succDay : ℕ × ℕ × ℕ → ℕ × ℕ × ℕ
  | (y, m, d) =>
    if d < daysInMonth y m then (y, m, d + 1)
    else if m < 12 then (y, m + 1, 1)
    else (y + 1, 1, 1)

def addDays (p : ℕ × ℕ × ℕ) : ℕ → ℕ × ℕ × ℕ
  | 0 => p
  | n + 1 => addDays (succDay p) n

/-- Left-pad a decimal rendering with zeros to width `w`. -/
def padNat (w n : ℕ) : String :=
  String.mk (List.replicate (w - (Nat.repr n).length) '0') ++ Nat.repr n

def formatYMD : ℕ × ℕ × ℕ → String
  | (y, m, d) => padNat 4 y ++ "-" ++ padNat 2 m ++ "-" ++ padNat 2 d

/-- Source `buildDatesFromStart` (`extractForecast.js`): `n` consecutive calendar
days (as `YYYY-MM-DD`) starting at `startISO`, or `[]` when the start is
falsy/unparseable or `n = 0`.  Adding `i * MS_PER_DAY` to a UTC midnight and
taking `toISOString().slice(0, 10)` is calendar-day addition. -/
def buildDatesFromStart (startISO : Json) (n : ℕ) : List String :=
  if truthy startISO = false ∨ n = 0 then []
  else
    match startISO with
    | .str s =>
      match parseYMD s with
      | some ymd => (List.range n).map (fun i => formatYMD (addDays ymd i))
      | none => []
    | _ => []

def monthName (m : ℕ) : String :=
  if m = 1 then "Jan" else if m = 2 then "Feb" else if m = 3 then "Mar"
  else if m = 4 then "Apr" else if m = 5 then "May" else if m = 6 then "Jun"
  else if m = 7 then "Jul" else if m = 8 then "Aug" else if m = 9 then "Sep"
  else if m = 10 then "Oct" else if m = 11 then "Nov" else if m = 12 then "Dec"
  else ""

/-- Label formatting `dayjs(iso).format("MMM D")` (UTC): short month name and unpadded day,
read off the `YYYY-MM-DD` prefix of the ISO string. -/
def formatLabel (iso : String) : String :=
  match iso.toList with
  | _ :: _ :: _ :: _ :: _ :: m1 :: m2 :: _ :: d1 :: d2 :: _ =>
    monthName (digitsToNat 0 [m1, m2]) ++ " " ++ Nat.repr (digitsToNat 0 [d1, d2])
  | _ => ""

/-- Source: `const ensureLabel = (iso, idx) => iso ? dayjs(iso).format("MMM D") : \`D${idx + 1}\`;` -/
def ensureLabel (iso : Option String) (idx : ℕ) : String :=
  match iso with
  | some s => formatLabel s
  | none => "D" ++ Nat.repr (idx + 1)

/-! ### Stable sorting

ECMAScript requires `Array.prototype.sort` to be stable; with a consistent
comparator `c` its output is the unique stable reordering that is sorted for
the total preorder `le a b := c(a, b) <= 0`.  We realize that unique output
with a stable insertion sort on `le`. -/

/-- `a` strictly precedes `b` in the preorder `le`. -/
def ltOf (le : α → α → Bool) (a b : α) : Bool := le a b && !le b a

/-- Insert `x` (originally located before every element of `l`) into the
sorted list `l`: skip exactly the elements strictly smaller than `x`. -/
def insertStable (le : α → α → Bool) (x : α) : List α → List α
  | [] => [x]
  | y :: ys => if ltOf le y x then y :: insertStable le x ys else x :: y :: ys

/-- Stable sort for the total preorder `le`. -/
def sortStable (le : α → α → Bool) : List α → List α
  | [] => []
  | x :: xs => insertStable le x (sortStable le xs)

/-! ### Lexicographic string order (`localeCompare` on ISO strings) -/

/-- Code-unit lexicographic order on character lists. -/
def lexLe : List Char → List Char → Bool
  | [], _ => true
  | _ :: _, [] => false
  | a :: as, b :: bs => if a < b then true else if b < a then false else lexLe as bs

/-- The order `a.localeCompare(b) <= 0`, modelled as code-unit lexicographic order. -/
def strLe (a b : String) : Bool := lexLe a.toList b.toList

/-! ### The canonical row shape -/

/-- A mapped row of `normalize` before the temporary sort index `__i` is
stripped (source: the object built at `normalize.js` lines 69–78). -/
structure Row where
  i : ℕ
  id : Json
  date : Option String
  kp : Option ℚ
  ap : Option ℚ
  f107 : Option ℚ
  note : Json
  label : Json

/-- The canonical output record (`{ id, date, kp, ap, f107, note, label }`). -/
structure DayRec where
  id : Json
  date : Option String
  kp : Option ℚ
  ap : Option ℚ
  f107 : Option ℚ
  note : Json
  label : Json

def stripRow (r : Row) : DayRec :=
  { id := r.id, date := r.date, kp := r.kp, ap := r.ap, f107 := r.f107,
    note := r.note, label := r.label }

/-- Source `byDateThenIdx` as the induced total preorder `comparator(a,b) <= 0`:
```js
const byDateThenIdx = (a, b) => {
  if (a.date && b.date) return a.date.localeCompare(b.date);
  if (a.date) return -1;
  if (b.date) return 1;
  return a.__i - b.__i;
};
``` -/
def rowLe (a b : Row) : Bool :=
  match a.date, b.date with
  | some s, some t => strLe s t
  | some _, none => true
  | none, some _ => false
  | none, none => a.i ≤ b.i

/-- De-duplication key `r.date || "idx:" + r.__i`
(`normalize.js` line 89).  An ISO date string never has the `"idx:"` prefix
and decimal index renderings are injective, so the key is modelled as the
disjoint sum of the two cases. -/
def rowKey (r : Row) : String ⊕ ℕ :=
  match r.date with
  | some s => Sum.inl s
  | none => Sum.inr r.i

/-- The de-duplication loop (`normalize.js` lines 85–93): keep the first
occurrence of each key, tracking the set of keys already seen. -/
def dedupeKeyed {α : Type} (key : α → String ⊕ ℕ) (seen : List (String ⊕ ℕ)) :
    List α → List α
  | [] => []
  | r :: rs =>
    if seen.any (fun k => decide (k = key r)) then dedupeKeyed key seen rs
    else r :: dedupeKeyed key (key r :: seen) rs

/-! ### `extractForecast.js` -/

def WRAPPER_KEYS : List String := ["forecast", "predictions", "data", "items", "result", "values", "latest"]
def KP_KEYS : List String := ["kp", "Kp", "kp_index", "KpIndex"]
def AP_KEYS : List String := ["ap", "Ap", "ap_index"]
def F107_KEYS : List String := ["f107", "F107", "f10_7", "solar_flux"]
def DATE_ARRAY_KEYS : List String := ["dates", "date"]

/-- Source `firstArray(obj, keys)`: the first key whose value is an array. -/
def firstArray (j : Json) : List String → Option (List Json)
  | [] => none
  | k :: ks =>
    match getField j k with
    | some (.arr xs) => some xs
    | _ => firstArray j ks

/-- Source `firstScalar(obj, keys)`: guarded by truthiness of the receiver; the
first key with a present, non-null, non-array value. -/
def firstScalar (j : Json) (keys : List String) : Option Json :=
  if truthy j = false then none else go keys
where
  go : List String → Option Json
    | [] => none
    | k :: ks =>
      match getField j k with
      | some .null => go ks
      | some (.arr _) => go ks
      | some v => some v
      | none => go ks

/-- Source `looksLikeDay(o)`: a non-null object (arrays have only index keys, so
they never match) with some Kp-variant key present, even with a null
value. -/
def looksLikeDay (j : Json) : Bool :=
  match j with
  | .obj fs => KP_KEYS.any (fun k => fs.any (fun p => p.1 == k))
  | _ => false

/-- Option-valued JS number back into a JSON field value. -/
def optNumJson : Option ℚ → Json
  | none => .null
  | some q => .num q

/-- Option-valued JS value with `undefined` collapsed to `null`
(for `x ?? null` stored into an object literal). -/
def undefToNull : Option Json → Json
  | none => .null
  | some v => v

/-- Source `massage` (`extractForecast.js` lines 71–93) on one element.  The source
parses `toISO(String(d.date))`; in the modelled date grammar no non-string
coercion result parses, so the coercion is folded into `toISO`. -/
def massageOne (d0 : Json) (idx : ℕ) : Json :=
  let d := match d0 with | .null => .obj [] | x => x
  let iso : Option String := if truthy (jsGet d "date") then toISO (jsGet d "date") else none
  let kpVal := toNum (firstNV d KP_KEYS)
  let apVal :=
    match toNum (firstNV d AP_KEYS) with
    | some a => some a
    | none => match kpVal with | some k => kpToAp (jsRound k) | none => none
  let f107Val := toNum (firstNV d F107_KEYS)
  Json.obj
    [("id", (firstNV d ["id"]).getD (match iso with | some s => .str s | none => .num idx)),
     ("date", match iso with | some s => .str s | none => .null),
     ("kp", optNumJson kpVal),
     ("ap", optNumJson apVal),
     ("f107", optNumJson f107Val),
     ("note", (firstNV d ["note", "comment"]).getD .null),
     ("label", .str (ensureLabel iso idx))]

def massageFrom (i : ℕ) : List Json → List Json
  | [] => []
  | d :: ds => massageOne d i :: massageFrom (i + 1) ds

def massage (arr : List Json) : List Json := massageFrom 0 arr

/-- The `horizon` field when it is an array (shape 1 discriminant). -/
def horizonArr (p : Json) : Option (List Json) :=
  match getField p "horizon" with
  | some (.arr h) => some h
  | _ => none

/-- Shape 1 (`extractForecast.js` lines 100–131): backend
`horizon + (dates_utc | beyond_start_utc | meta.*)` payloads, before
`massage`. -/
def horizonRows (p : Json) (horizon : List Json) : List Json :=
  let explicitDates : Option (List Json) :=
    match getField p "dates_utc" with
    | some (.arr ds) => if ds.length = horizon.length then some ds else none
    | _ => none
  let startISO : Json :=
    jsOrV (jsGet p "beyond_start_utc")
      (jsOrV (jsGet (jsGet p "meta") "beyond_start_utc")
        (jsOrV (jsGet (jsGet p "meta") "start_date_day1_utc") .null))
  let dates : List Json :=
    match explicitDates with
    | some ds => ds
    | none => (buildDatesFromStart startISO horizon.length).map Json.str
  let apArr := firstArray p AP_KEYS
  let fArr := firstArray p F107_KEYS
  let apScalar := jsCoalesce (firstScalar p AP_KEYS) (firstScalar (jsGet p "meta") AP_KEYS)
  let fScalar := jsCoalesce (firstScalar p F107_KEYS) (firstScalar (jsGet p "meta") F107_KEYS)
  (List.range horizon.length).map fun i =>
    Json.obj
      [("date", undefToNull (jsCoalesce (dates.get? i) (some .null))),
       ("kp", optNumJson (toNum (horizon.get? i))),
       ("ap", optNumJson (toNum (jsCoalesce (apArr.bind (·.get? i)) apScalar))),
       ("f107", optNumJson (toNum (jsCoalesce (fArr.bind (·.get? i)) fScalar)))]

/-- Shape 4 (`extractForecast.js` lines 142–160): columnar payloads, before
`massage`; `none` when no dates array or no Kp array is found. -/
def columnarRows (p : Json) : Option (List Json) :=
  match firstArray p DATE_ARRAY_KEYS, firstArray p KP_KEYS with
  | some ds, some ks =>
    let len := min ds.length ks.length
    let apArr := firstArray p AP_KEYS
    let fArr := firstArray p F107_KEYS
    some ((List.range len).map fun i =>
      Json.obj
        [("date", undefToNull (ds.get? i)),
         ("kp", optNumJson (toNum (ks.get? i))),
         ("ap", optNumJson (toNum (apArr.bind (·.get? i)))),
         ("f107", optNumJson (toNum (fArr.bind (·.get? i))))])
  | _, _ => none

/-- The pattern `/^D\d+$/` (shape 5 key pattern). -/
def isDKey (k : String) : Bool :=
  match k.toList with
  | 'D' :: rest => rest ≠ [] && rest.all isDigitCh
  | _ => false

/-- The suffix `parseInt(k.slice(1), 10)` of a `D<digits>` key. -/
def dSuffix (k : String) : ℕ := digitsToNat 0 (k.toList.drop 1)

/-- Shape 5 discriminant (`extractForecast.js` lines 163–165): the
`D<integer>` entries whose values are truthy objects (`typeof v ===
"object"` also accepts arrays). -/
def dayEntriesOf (p : Json) : List (String × Json) :=
  match p with
  | .obj fs =>
    fs.filter (fun kv =>
      isDKey kv.1 && truthy kv.2 &&
        (match kv.2 with | .obj _ => true | .arr _ => true | _ => false))
  | _ => []

/-- Shape 5 rows: entries sorted (stably) by numeric suffix, projected to
day tuples, before `massage`. -/
def dayRows (es : List (String × Json)) : List Json :=
  (sortStable (fun a b => dSuffix a.1 ≤ dSuffix b.1) es).map fun kv =>
    Json.obj
      [("date", undefToNull (jsCoalesce (getField kv.2 "date") (some .null))),
       ("kp", optNumJson (toNum (firstNV kv.2 KP_KEYS))),
       ("ap", optNumJson (toNum (firstNV kv.2 AP_KEYS))),
       ("f107", optNumJson (toNum (firstNV kv.2 F107_KEYS))),
       ("note", (firstNV kv.2 ["note", "comment"]).getD .null)]

/-- Source `extractForecast(payload)` (`extractForecast.js` lines 96–183): the
ordered shape dispatch. -/
def extractForecast (payload : Json) : List Json :=
  if truthy payload = false then []
  else
    match horizonArr payload with
    | some h => massage (horizonRows payload h)
    | none =>
      match payload with
      | .arr xs => massage xs
      | _ =>
        match firstArray payload WRAPPER_KEYS with
        | some xs => massage xs
        | none =>
          match columnarRows payload with
          | some rows => massage rows
          | none =>
            match dayEntriesOf payload with
            | [] => if looksLikeDay payload then massage [payload] else []
            | es => massage (dayRows es)

/-! ### `normalize.js` -/

/-- One step of the map+clean stage (`normalize.js` lines 58–79). -/
def mapRow (d : Json) (i : ℕ) : Row :=
  let iso : Option String := if truthy (jsGet d "date") then toISO (jsGet d "date") else none
  let kp := clamp (round1 (toNum (firstNV d KP_KEYS))) 0 9
  let ap :=
    match toNum (firstNV d AP_KEYS) with
    | some a => some a
    | none => match kp with | some k => kpToAp (jsRound k) | none => none
  { i := i,
    id := (firstNV d ["id"]).getD (match iso with | some s => .str s | none => .num i),
    date := iso,
    kp := kp,
    ap := ap,
    f107 := toNum (firstNV d F107_KEYS),
    note := (firstNV d ["note", "comment"]).getD .null,
    label := (firstNV d ["label"]).getD (.str (ensureLabel iso i)) }

/-- The map `rowsIn.map((d, i) => ...)` starting at index `i`. -/
def mapRows (i : ℕ) : List Json → List Row
  | [] => []
  | d :: ds => mapRow d i :: mapRows (i + 1) ds

/-- Source: `const rowsIn = Array.isArray(input) ? input : extractForecast(input);` -/
def rowsIn (input : Json) : List Json :=
  match input with
  | .arr xs => xs
  | _ => extractForecast input

/-- Stage 1 of `normalize`: map + clean. -/
def mappedRows (input : Json) : List Row := mapRows 0 (rowsIn input)

/-- Stage 2: `mapped.sort(byDateThenIdx)`. -/
def sortedRows (input : Json) : List Row := sortStable rowLe (mappedRows input)

/-- Stage 3: de-dupe by date, keeping the first occurrence. -/
def dedupedRows (input : Json) : List Row := dedupeKeyed rowKey [] (sortedRows input)

/-- Source `normalize(input)` (`normalize.js` lines 50–102): map + clean, sort,
de-dupe, strip the temporary `__i`. -/
def normalize (input : Json) : List DayRec := (dedupedRows input).map stripRow

/-- A canonical record reshaped as a JSON object row (the flat-array
re-ingestion shape used by the idempotence property). -/
def recToJson (r : DayRec) : Json :=
  Json.obj
    [("id", r.id),
     ("date", match r.date with | some s => .str s | none => .null),
     ("kp", optNumJson r.kp),
     ("ap", optNumJson r.ap),
     ("f107", optNumJson r.f107),
     ("note", r.note),
     ("label", r.label)]

/-! ### Proof-support definitions -/

/-- Canonical-shape invariant of every record `normalize` emits: dates are
stable under re-parsing, `kp` is a clamped tenth, `ap` is only null when
`kp` is, and `id`/`label` are non-null. -/
def CanonRec (r : DayRec) : Prop :=
  (∀ s, r.date = some s → toISOString s = some s ∧ s ≠ "") ∧
  (∀ k, r.kp = some k → round1 (some k) = some k ∧ clamp (some k) 0 9 = some k) ∧
  (r.ap = none → r.kp = none) ∧
  r.id ≠ .null ∧ r.label ≠ .null

/-- Re-attach fresh consecutive sort indices to a row list (what the second
pass of `normalize` does to an already-canonical row list). -/
def reindexFrom (n : ℕ) : List Row → List Row
  | [] => []
  | r :: rs => { r with i := n } :: reindexFrom (n + 1) rs

/-- A JSON scalar (null, boolean, number, or string). -/
def isScalar : Json → Bool
  | .null => true
  | .bool _ => true
  | .num _ => true
  | .str _ => true
  | _ => false

def isObj : Json → Bool
  | .obj _ => true
  | _ => false

/-! ### Concrete payloads for the testable scenarios -/

/-- Payload `{horizon: [2,3,4], dates_utc: ["2024-01-01","2024-01-02","2024-01-03"]}` -/
def payloadHorizon : Json :=
  .obj [("horizon", .arr [.num 2, .num 3, .num 4]),
        ("dates_utc", .arr [.str "2024-01-01", .str "2024-01-02", .str "2024-01-03"])]

/-- Payload `[{id: 1}, {}]`: an explicit id colliding with a positional id. -/
def payloadDupIds : Json := .arr [.obj [("id", .num 1)], .obj []]

/-- Payload `[{date:"2024-01-01",kp:3},{date:"2024-01-01",kp:9}]` -/
def payloadDupDates : Json :=
  .arr [.obj [("date", .str "2024-01-01"), ("kp", .num 3)],
        .obj [("date", .str "2024-01-01"), ("kp", .num 9)]]

/-- Payload `[{date:"2024-01-03",kp:1},{note:"u0"},{date:"2024-01-01",kp:2},{note:"u1"}]` -/
def payloadUnsorted : Json :=
  .arr [.obj [("date", .str "2024-01-03"), ("kp", .num 1)],
        .obj [("note", .str "u0")],
        .obj [("date", .str "2024-01-01"), ("kp", .num 2)],
        .obj [("note", .str "u1")]]

/-- Payload `[{kp: 3.14}]` -/
def payloadPi : Json := .arr [.obj [("kp", .num (Rat.divInt 157 50))]]

/-- Payload `[{kp: 100, ap: ""}]`: an out-of-range Kp with an unparseable Ap. -/
def payloadBigKp : Json := .arr [.obj [("kp", .num 100), ("ap", .str "")]]

/-- Payload `[{date:"2024-01-01"}, {}]`: no record supplies an id. -/
def payloadNoIds : Json := .arr [.obj [("date", .str "2024-01-01")], .obj []]

/-! ## Lemmas: arithmetic -/

theorem fdiv_eq_floor (a b : ℤ) (hb : 0 < b) : Int.fdiv a b = ⌊(a : ℚ) / (b : ℚ)⌋ := by
  have hb0 : (b : ℚ) ≠ 0 := by exact_mod_cast hb.ne'
  have hmod := Int.fdiv_add_fmod a b
  have h0 : (0 : ℤ) ≤ a.fmod b := Int.fmod_nonneg' a hb
  have h1 : a.fmod b < b := Int.fmod_lt_of_pos a hb
  symm
  rw [Int.floor_eq_iff]
  constructor
  · rw [le_div_iff₀ (by exact_mod_cast hb)]
    have : (b : ℚ) * (a.fdiv b : ℚ) ≤ (b : ℚ) * (a.fdiv b : ℚ) + (a.fmod b : ℚ) := by
      have : (0 : ℚ) ≤ (a.fmod b : ℚ) := by exact_mod_cast h0
      linarith
    calc ((a.fdiv b : ℤ) : ℚ) * (b : ℚ) = (b : ℚ) * (a.fdiv b : ℚ) := by ring
    _ ≤ (b : ℚ) * (a.fdiv b : ℚ) + (a.fmod b : ℚ) := this
    _ = (a : ℚ) := by exact_mod_cast congrArg (fun z : ℤ => (z : ℚ)) hmod
  · rw [div_lt_iff₀ (by exact_mod_cast hb)]
    have hfm : ((a.fmod b : ℤ) : ℚ) < (b : ℚ) := by exact_mod_cast h1
    calc (a : ℚ) = (b : ℚ) * (a.fdiv b : ℚ) + (a.fmod b : ℚ) := by
          exact_mod_cast (congrArg (fun z : ℤ => (z : ℚ)) hmod).symm
    _ < (b : ℚ) * (a.fdiv b : ℚ) + (b : ℚ) := by linarith
    _ = ((a.fdiv b : ℚ) + 1) * (b : ℚ) := by ring

theorem num_eq_mul_den (q : ℚ) : (q.num : ℚ) = q * (q.den : ℚ) := by
  have hden : (q.den : ℚ) ≠ 0 := by
    exact_mod_cast q.den_pos.ne'
  exact ((div_eq_iff hden).mp (Rat.num_div_den q)).symm ▸ rfl

/-- Identity `Math.round q = ⌊q + 1/2⌋`. -/
theorem jsRound_eq_floor (q : ℚ) : jsRound q = ⌊q + 1/2⌋ := by
  have hden : (0 : ℤ) < 2 * (q.den : ℤ) := by positivity
  have hdenq : ((q.den : ℤ) : ℚ) ≠ 0 := by
    exact_mod_cast q.den_pos.ne'
  rw [jsRound, fdiv_eq_floor _ _ hden]
  congr 1
  push_cast
  rw [div_eq_iff (by positivity : (2 * (q.den : ℚ)) ≠ 0), num_eq_mul_den q]
  ring

/-- Multiplication by ten written with `Rat.divInt` (as in the executable `round1`). -/
theorem divInt_num_mul_ten (q : ℚ) : Rat.divInt (q.num * 10) (q.den : ℤ) = q * 10 := by
  have hden : ((q.den : ℤ) : ℚ) ≠ 0 := by
    exact_mod_cast q.den_pos.ne'
  rw [Rat.divInt_eq_div]
  push_cast
  rw [div_eq_iff (by positivity : ((q.den : ℚ)) ≠ 0), num_eq_mul_den q]
  ring

/-- Evaluating `round1` on a non-null value gives `Math.round(q*10)/10`. -/
theorem round1_some (q : ℚ) :
    round1 (some q) = some ((⌊q * 10 + 1/2⌋ : ℚ) / 10) := by
  rw [round1, divInt_num_mul_ten, jsRound_eq_floor, Rat.divInt_eq_div]
  norm_num

/-- Rounding an integer-valued rational is the identity. -/
theorem jsRound_intCast (m : ℤ) : jsRound (m : ℚ) = m := by
  rw [jsRound_eq_floor, Int.floor_int_add]
  norm_num

/-- Rounding to tenths is the identity on tenths. -/
theorem round1_tenth (m : ℤ) : round1 (some ((m : ℚ) / 10)) = some ((m : ℚ) / 10) := by
  rw [round1_some]
  congr 1
  rw [show ((m : ℚ) / 10 * 10) = (m : ℚ) by field_simp]
  rw [Int.floor_int_add]
  norm_num

/-- The clamped, rounded Kp is a tenth in `[0, 9]`. -/
theorem clamp_round1_shape (v : Option ℚ) (k : ℚ)
    (h : clamp (round1 v) 0 9 = some k) :
    0 ≤ k ∧ k ≤ 9 ∧ ∃ m : ℤ, k = (m : ℚ) / 10 := by
  match v with
  | none => simp [round1, clamp] at h
  | some q =>
    rw [round1_some] at h
    set z := ⌊q * 10 + 1/2⌋ with hz
    rw [clamp] at h
    have hk : k = min 9 (max 0 ((z : ℚ) / 10)) := by
      exact (Option.some_injective _ h).symm
    subst hk
    refine ⟨le_min (by norm_num) (le_max_left _ _), min_le_left _ _, ?_⟩
    rcases le_total ((z : ℚ) / 10) 0 with h0 | h0
    · exact ⟨0, by rw [max_eq_left h0]; norm_num⟩
    · rw [max_eq_right h0]
      rcases le_total (9 : ℚ) ((z : ℚ) / 10) with h9 | h9
      · exact ⟨90, by rw [min_eq_left h9]; norm_num⟩
      · exact ⟨z, by rw [min_eq_right h9]⟩

/-- Clamping fixes values already in range. -/
theorem clamp_of_mem (k : ℚ) (h0 : 0 ≤ k) (h9 : k ≤ 9) :
    clamp (some k) 0 9 = some k := by
  rw [clamp, max_eq_right h0, min_eq_right h9]

/-- Rounding maps `[0, 9]` into `[0, 9]`. -/
theorem jsRound_mem (k : ℚ) (h0 : 0 ≤ k) (h9 : k ≤ 9) :
    0 ≤ jsRound k ∧ jsRound k ≤ 9 := by
  rw [jsRound_eq_floor]
  constructor
  · rw [Int.le_floor]
    push_cast
    linarith
  · have : (⌊k + 1/2⌋ : ℚ) ≤ k + 1/2 := Int.floor_le _
    have h10 : (⌊k + 1/2⌋ : ℚ) < 10 := by linarith
    exact_mod_cast Int.lt_add_one_iff.mp (by exact_mod_cast h10)

/-- The lookup table is defined exactly on `{0, ..., 9}`. -/
theorem kpToAp_eq_none_iff (n : ℤ) : kpToAp n = none ↔ (n < 0 ∨ 9 < n) := by
  rw [kpToAp]
  split_ifs with h0 h1 h2 h3 h4 h5 h6 h7 h8 h9 <;> simp <;> omega

theorem kpToAp_isSome (n : ℤ) (h0 : 0 ≤ n) (h9 : n ≤ 9) : kpToAp n ≠ none := by
  rw [Ne, kpToAp_eq_none_iff]
  omega

/-! ## Lemmas: the lexicographic order and the row comparator -/

theorem lexLe_total (as bs : List Char) : lexLe as bs = true ∨ lexLe bs as = true := by
  induction as generalizing bs with
  | nil => left; rfl
  | cons a as ih =>
    cases bs with
    | nil => right; rfl
    | cons b bs =>
      rcases lt_trichotomy a b with h | h | h
      · left; simp [lexLe, h]
      · subst h
        rcases ih bs with h2 | h2
        · left; simp [lexLe, lt_irrefl, h2]
        · right; simp [lexLe, lt_irrefl, h2]
      · right; simp [lexLe, h]

theorem lexLe_trans (as bs cs : List Char) (h1 : lexLe as bs = true)
    (h2 : lexLe bs cs = true) : lexLe as cs = true := by
  induction as generalizing bs cs with
  | nil => rfl
  | cons a as ih =>
    cases bs with
    | nil => simp [lexLe] at h1
    | cons b bs =>
      cases cs with
      | nil => simp [lexLe] at h2
      | cons c cs =>
        rw [lexLe] at h1 h2 ⊢
        by_cases hab : a < b
        · by_cases hbc : b < c
          · simp [lt_trans hab hbc]
          · by_cases hcb : c < b
            · rw [if_neg hbc, if_pos hcb] at h2; cases h2
            · have hbcq : b = c := le_antisymm (not_lt.mp hcb) (not_lt.mp hbc)
              subst hbcq
              simp [hab]
        · by_cases hba : b < a
          · rw [if_neg hab, if_pos hba] at h1; cases h1
          · have habq : a = b := le_antisymm (not_lt.mp hba) (not_lt.mp hab)
            subst habq
            rw [if_neg (lt_irrefl a), if_neg (lt_irrefl a)] at h1
            by_cases hac : a < c
            · simp [hac]
            · by_cases hca : c < a
              · rw [if_neg hac, if_pos hca] at h2; cases h2
              · have hacq : a = c := le_antisymm (not_lt.mp hca) (not_lt.mp hac)
                subst hacq
                rw [if_neg (lt_irrefl a), if_neg (lt_irrefl a)] at h2 ⊢
                exact ih bs cs h1 h2

theorem lexLe_antisymm (as bs : List Char) (h1 : lexLe as bs = true)
    (h2 : lexLe bs as = true) : as = bs := by
  induction as generalizing bs with
  | nil =>
    cases bs with
    | nil => rfl
    | cons b bs => simp [lexLe] at h2
  | cons a as ih =>
    cases bs with
    | nil => simp [lexLe] at h1
    | cons b bs =>
      rw [lexLe] at h1 h2
      by_cases hab : a < b
      · rw [if_neg (lt_asymm hab), if_pos hab] at h2; cases h2
      · by_cases hba : b < a
        · rw [if_neg hab, if_pos hba] at h1; cases h1
        · have hq : a = b := le_antisymm (not_lt.mp hba) (not_lt.mp hab)
          subst hq
          rw [if_neg (lt_irrefl a), if_neg (lt_irrefl a)] at h1 h2
          rw [ih bs h1 h2]

theorem strLe_total (a b : String) : strLe a b = true ∨ strLe b a = true :=
  lexLe_total a.toList b.toList

theorem strLe_trans {a b c : String} (h1 : strLe a b = true) (h2 : strLe b c = true) :
    strLe a c = true :=
  lexLe_trans a.toList b.toList c.toList h1 h2

theorem strLe_antisymm {a b : String} (h1 : strLe a b = true) (h2 : strLe b a = true) :
    a = b :=
  String.ext (lexLe_antisymm a.toList b.toList h1 h2)

theorem rowLe_trans (a b c : Row) (h1 : rowLe a b = true) (h2 : rowLe b c = true) :
    rowLe a c = true := by
  rw [rowLe] at h1 h2 ⊢
  cases ha : a.date with
  | some s =>
    cases hc : c.date with
    | some u =>
      cases hb : b.date with
      | some t =>
        rw [ha, hb] at h1
        rw [hb, hc] at h2
        exact strLe_trans h1 h2
      | none =>
        rw [hb, hc] at h2
        simp at h2
    | none => rfl
  | none =>
    cases hc : c.date with
    | some u =>
      cases hb : b.date with
      | some t =>
        rw [ha, hb] at h1
        simp at h1
      | none =>
        rw [hb, hc] at h2
        simp at h2
    | none =>
      cases hb : b.date with
      | some t =>
        rw [ha, hb] at h1
        simp at h1
      | none =>
        rw [ha, hb] at h1
        rw [hb, hc] at h2
        simp only [decide_eq_true_eq] at h1 h2 ⊢
        exact le_trans h1 h2

theorem rowLe_total (a b : Row) : rowLe a b = true ∨ rowLe b a = true := by
  rw [rowLe, rowLe]
  cases ha : a.date with
  | some s =>
    cases hb : b.date with
    | some t => exact strLe_total s t
    | none => left; rfl
  | none =>
    cases hb : b.date with
    | some t => right; rfl
    | none =>
      simp only [decide_eq_true_eq]
      exact Nat.le_total a.i b.i

/-! ## Lemmas: the stable sort -/

theorem insertStable_perm (le : α → α → Bool) (x : α) (l : List α) :
    (insertStable le x l).Perm (x :: l) := by
  induction l with
  | nil => exact List.Perm.refl _
  | cons y ys ih =>
    rw [insertStable]
    split_ifs with h
    · exact ((ih.cons y).trans (List.Perm.swap x y ys))
    · exact List.Perm.refl _

theorem sortStable_perm (le : α → α → Bool) (l : List α) :
    (sortStable le l).Perm l := by
  induction l with
  | nil => exact List.Perm.refl _
  | cons x xs ih =>
    exact (insertStable_perm le x (sortStable le xs)).trans (ih.cons x)

theorem mem_insertStable {le : α → α → Bool} {x z : α} {l : List α}
    (h : z ∈ insertStable le x l) : z = x ∨ z ∈ l := by
  have := (insertStable_perm le x l).mem_iff.mp h
  simpa using this

theorem pairwise_insertStable {le : α → α → Bool}
    (htrans : ∀ a b c, le a b = true → le b c = true → le a c = true)
    (htotal : ∀ a b, le a b = true ∨ le b a = true)
    {x : α} {l : List α} (hl : l.Pairwise (fun a b => le a b = true)) :
    (insertStable le x l).Pairwise (fun a b => le a b = true) := by
  induction l with
  | nil => simp [insertStable]
  | cons y ys ih =>
    rw [List.pairwise_cons] at hl
    rw [insertStable]
    split_ifs with h
    · rw [List.pairwise_cons]
      refine ⟨?_, ih hl.2⟩
      intro z hz
      rcases mem_insertStable hz with rfl | hz2
      · rw [ltOf, Bool.and_eq_true] at h
        exact h.1
      · exact hl.1 z hz2
    · have hxy : le x y = true := by
        cases hxyb : le x y with
        | true => rfl
        | false =>
          rw [ltOf, hxyb] at h
          simp at h
          rcases htotal x y with h2 | h2
          · rw [hxyb] at h2; cases h2
          · rw [h2] at h; cases h
      rw [List.pairwise_cons]
      constructor
      · intro z hz
        rcases List.mem_cons.mp hz with rfl | hz2
        · exact hxy
        · exact htrans x y z hxy (hl.1 z hz2)
      · exact List.pairwise_cons.mpr hl

theorem sortStable_pairwise {le : α → α → Bool}
    (htrans : ∀ a b c, le a b = true → le b c = true → le a c = true)
    (htotal : ∀ a b, le a b = true ∨ le b a = true) (l : List α) :
    (sortStable le l).Pairwise (fun a b => le a b = true) := by
  induction l with
  | nil => exact List.Pairwise.nil
  | cons x xs ih => exact pairwise_insertStable htrans htotal ih

/-- A stable sort leaves an already-sorted list unchanged. -/
theorem sortStable_eq_of_pairwise {le : α → α → Bool} {l : List α}
    (h : l.Pairwise (fun a b => le a b = true)) : sortStable le l = l := by
  induction l with
  | nil => rfl
  | cons x xs ih =>
    rw [List.pairwise_cons] at h
    rw [sortStable, ih h.2]
    cases xs with
    | nil => rfl
    | cons y ys =>
      have hxy : le x y = true := h.1 y (List.mem_cons_self y ys)
      rw [insertStable, ltOf, hxy]
      simp

/-! ## Lemmas: de-duplication -/

theorem dedupeKeyed_sublist {α : Type} (key : α → String ⊕ ℕ) :
    ∀ (l : List α) (seen : List (String ⊕ ℕ)), (dedupeKeyed key seen l).Sublist l := by
  intro l
  induction l with
  | nil => intro seen; exact List.Sublist.refl _
  | cons r rs ih =>
    intro seen
    rw [dedupeKeyed]
    split_ifs with h
    · exact (ih seen).cons r
    · exact (ih (key r :: seen)).cons₂ r

theorem mem_dedupeKeyed_iff {α : Type} (key : α → String ⊕ ℕ) :
    ∀ (l : List α) (seen : List (String ⊕ ℕ)) (x : α),
      x ∈ dedupeKeyed key seen l ↔
        key x ∉ seen ∧ l.find? (fun y => decide (key y = key x)) = some x := by
  intro l
  induction l with
  | nil => intro seen x; simp [dedupeKeyed]
  | cons r rs ih =>
    intro seen x
    rw [dedupeKeyed]
    have hfind := @List.find?_cons _ r rs (fun y => decide (key y = key x))
    split_ifs with h
    · -- key r already seen
      have hseen : key r ∈ seen := by
        rcases List.any_eq_true.mp h with ⟨k, hk, hdk⟩
        rw [decide_eq_true_eq] at hdk
        exact hdk ▸ hk
      rw [ih seen x, hfind]
      by_cases hkey : key r = key x
      · rw [decide_eq_true hkey]
        constructor
        · rintro ⟨hnot, _⟩
          exact absurd (hkey ▸ hseen) hnot
        · rintro ⟨hnot, hr⟩
          exact absurd (hkey ▸ hseen) hnot
      · rw [decide_eq_false hkey]
    · -- key r not yet seen
      have hseen : key r ∉ seen := by
        intro hmem
        exact h (List.any_eq_true.mpr ⟨key r, hmem, by exact decide_eq_true rfl⟩)
      rw [List.mem_cons, ih (key r :: seen) x, hfind]
      by_cases hkey : key r = key x
      · rw [decide_eq_true hkey]
        constructor
        · rintro (rfl | ⟨hnot, hfind2⟩)
          · exact ⟨fun hc => hseen (hkey ▸ hc), rfl⟩
          · exact absurd (hkey ▸ List.mem_cons_self _ _) hnot
        · rintro ⟨hnot, hr⟩
          left
          exact (Option.some_injective _ hr).symm
      · rw [decide_eq_false hkey]
        constructor
        · rintro (rfl | ⟨hnot, hfind2⟩)
          · exact absurd rfl hkey
          · exact ⟨fun hc => hnot (List.mem_cons_of_mem _ hc), hfind2⟩
        · rintro ⟨hnot, hfind2⟩
          right
          refine ⟨?_, hfind2⟩
          rw [List.mem_cons]
          rintro (hc | hc)
          · exact hkey hc.symm
          · exact hnot hc

theorem mem_dedupeKeyed_not_seen {α : Type} {key : α → String ⊕ ℕ} {l : List α}
    {seen : List (String ⊕ ℕ)} {x : α} (h : x ∈ dedupeKeyed key seen l) :
    key x ∉ seen :=
  ((mem_dedupeKeyed_iff key l seen x).mp h).1

theorem dedupeKeyed_pairwise {α : Type} (key : α → String ⊕ ℕ) :
    ∀ (l : List α) (seen : List (String ⊕ ℕ)),
      (dedupeKeyed key seen l).Pairwise (fun a b => key a ≠ key b) := by
  intro l
  induction l with
  | nil => intro seen; exact List.Pairwise.nil
  | cons r rs ih =>
    intro seen
    rw [dedupeKeyed]
    split_ifs with h
    · exact ih seen
    · rw [List.pairwise_cons]
      refine ⟨?_, ih (key r :: seen)⟩
      intro z hz hkeq
      exact mem_dedupeKeyed_not_seen hz (hkeq ▸ List.mem_cons_self _ _)

theorem dedupeKeyed_eq_self {α : Type} {key : α → String ⊕ ℕ} :
    ∀ {l : List α} {seen : List (String ⊕ ℕ)},
      l.Pairwise (fun a b => key a ≠ key b) → (∀ x ∈ l, key x ∉ seen) →
      dedupeKeyed key seen l = l := by
  intro l
  induction l with
  | nil => intro seen _ _; rfl
  | cons r rs ih =>
    intro seen hp hseen
    rw [List.pairwise_cons] at hp
    rw [dedupeKeyed]
    have hnot : seen.any (fun k => decide (k = key r)) = false := by
      rw [Bool.eq_false_iff]
      intro hc
      rcases List.any_eq_true.mp hc with ⟨k, hk, hdk⟩
      rw [decide_eq_true_eq] at hdk
      exact hseen r (List.mem_cons_self _ _) (hdk ▸ hk)
    rw [if_neg (by rw [hnot]; exact Bool.false_ne_true)]
    congr 1
    refine ih hp.2 ?_
    intro x hx
    rw [List.mem_cons]
    rintro (hc | hc)
    · exact hp.1 x hx hc.symm
    · exact hseen x (List.mem_cons_of_mem _ hx) hc

/-! ## Lemmas: the map stage -/

theorem mem_mapRows : ∀ (l : List Json) (n : ℕ) (r : Row),
    r ∈ mapRows n l ↔ ∃ j d, l.get? j = some d ∧ r = mapRow d (n + j) := by
  intro l
  induction l with
  | nil => intro n r; simp [mapRows]
  | cons x xs ih =>
    intro n r
    rw [mapRows, List.mem_cons, ih (n + 1) r]
    constructor
    · rintro (rfl | ⟨j, d, hget, rfl⟩)
      · exact ⟨0, x, rfl, by rw [Nat.add_zero]⟩
      · refine ⟨j + 1, d, hget, ?_⟩
        congr 1
        omega
    · rintro ⟨j, d, hget, hr⟩
      cases j with
      | zero =>
        left
        rw [List.get?_cons_zero] at hget
        rw [hr, Option.some_injective _ hget, Nat.add_zero]
      | succ j =>
        right
        rw [List.get?_cons_succ] at hget
        refine ⟨j, d, hget, ?_⟩
        rw [hr]
        congr 1
        omega

theorem mapRow_i (d : Json) (i : ℕ) : (mapRow d i).i = i := rfl

theorem mem_mapRows_le : ∀ (l : List Json) (n : ℕ) (r : Row), r ∈ mapRows n l → n ≤ r.i := by
  intro l n r hr
  rcases (mem_mapRows l n r).mp hr with ⟨j, d, _, rfl⟩
  rw [mapRow_i]
  exact Nat.le_add_right n j

theorem mapRows_pairwise_lt (l : List Json) :
    ∀ n, (mapRows n l).Pairwise (fun a b => a.i < b.i) := by
  induction l with
  | nil => intro n; exact List.Pairwise.nil
  | cons x xs ih =>
    intro n
    rw [mapRows, List.pairwise_cons]
    refine ⟨?_, ih (n + 1)⟩
    intro z hz
    rw [mapRow_i]
    exact Nat.lt_of_succ_le (mem_mapRows_le xs (n + 1) z hz)

/-! ## Lemmas: ISO date strings -/

theorem parseYMDList_shape {cs : List Char} {ymd : ℕ × ℕ × ℕ}
    (h : parseYMDList cs = some ymd) :
    ∃ y1 y2 y3 y4 m1 m2 d1 d2,
      cs = [y1, y2, y3, y4, '-', m1, m2, '-', d1, d2] := by
  unfold parseYMDList at h
  split at h
  · next y1 y2 y3 y4 m1 m2 d1 d2 =>
    exact ⟨y1, y2, y3, y4, m1, m2, d1, d2, rfl⟩
  · exact absurd h (by simp)

/-- The function `toISOString` lands on its own fixed points, and never on the empty
string: the key fact behind idempotence of re-normalization. -/
theorem toISOString_shape {s0 s : String} (h : toISOString s0 = some s) :
    toISOString s = some s ∧ s ≠ "" := by
  rw [toISOString] at h
  cases hp : parseYMD s0 with
  | some ymd =>
    rw [hp] at h
    have hs : s = s0 ++ "T00:00:00.000Z" := (Option.some_injective _ h).symm
    obtain ⟨y1, y2, y3, y4, m1, m2, d1, d2, hlist⟩ := parseYMDList_shape (hp ▸ rfl : parseYMDList s0.toList = some ymd)
    have hslist : s.toList =
        [y1, y2, y3, y4, '-', m1, m2, '-', d1, d2,
         'T', '0', '0', ':', '0', '0', ':', '0', '0', '.', '0', '0', '0', 'Z'] := by
      rw [hs]
      show (s0 ++ "T00:00:00.000Z").data = _
      rw [String.data_append]
      show s0.toList ++ _ = _
      rw [hlist]
      rfl
    have h10 : parseYMDList [y1, y2, y3, y4, '-', m1, m2, '-', d1, d2] = some ymd := by
      rw [← hlist]
      exact hp ▸ rfl
    constructor
    · rw [toISOString]
      have hnone : parseYMD s = none := by
        rw [parseYMD, hslist]
        rfl
      rw [hnone]
      have hvalid : validFullISO s = true := by
        rw [validFullISO, hslist, validFullISOList, h10]
        rfl
      rw [hvalid]
      simp
    · intro he
      rw [he] at hslist
      exact absurd hslist (by simp [String.toList])
  | none =>
    rw [hp] at h
    cases hv : validFullISO s0 with
    | false =>
      rw [hv] at h
      exact absurd h (by simp)
    | true =>
      rw [hv] at h
      simp only [if_true] at h
      have hs : s0 = s := Option.some_injective _ h
      subst hs
      refine ⟨by rw [toISOString, hp, hv]; simp, ?_⟩
      intro he
      rw [he] at hv
      exact absurd hv (by simp [validFullISO, validFullISOList, String.toList])

/-- The function `toISO` produces only fixed points of `toISOString`. -/
theorem toISO_shape {j : Json} {s : String} (h : toISO j = some s) :
    toISOString s = some s ∧ s ≠ "" := by
  cases j with
  | str s0 =>
    simp only [toISO] at h
    split_ifs at h
    exact toISOString_shape h
  | null => simp [toISO, truthy] at h
  | bool b => simp [toISO] at h
  | num q => simp [toISO] at h
  | arr xs => simp [toISO] at h
  | obj fs => simp [toISO] at h

/-! ## Lemmas: the map stage, field by field -/

theorem mapRow_date (d : Json) (i : ℕ) :
    (mapRow d i).date = (if truthy (jsGet d "date") then toISO (jsGet d "date") else none) := rfl

theorem mapRow_kp (d : Json) (i : ℕ) :
    (mapRow d i).kp = clamp (round1 (toNum (firstNV d KP_KEYS))) 0 9 := rfl

theorem mapRow_ap (d : Json) (i : ℕ) :
    (mapRow d i).ap =
      (match toNum (firstNV d AP_KEYS) with
       | some a => some a
       | none =>
         match (mapRow d i).kp with
         | some k => kpToAp (jsRound k)
         | none => none) := rfl

theorem mapRow_f107 (d : Json) (i : ℕ) :
    (mapRow d i).f107 = toNum (firstNV d F107_KEYS) := rfl

theorem mapRow_id (d : Json) (i : ℕ) :
    (mapRow d i).id =
      (firstNV d ["id"]).getD
        (match (mapRow d i).date with | some s => .str s | none => .num i) := rfl

theorem mapRow_note (d : Json) (i : ℕ) :
    (mapRow d i).note = (firstNV d ["note", "comment"]).getD .null := rfl

theorem mapRow_label (d : Json) (i : ℕ) :
    (mapRow d i).label =
      (firstNV d ["label"]).getD (.str (ensureLabel ((mapRow d i).date) i)) := rfl

theorem mapRow_kp_shape {d : Json} {i : ℕ} {k : ℚ} (h : (mapRow d i).kp = some k) :
    0 ≤ k ∧ k ≤ 9 ∧ ∃ m : ℤ, k = (m : ℚ) / 10 :=
  clamp_round1_shape _ k ((mapRow_kp d i).symm.trans h)

theorem mapRow_kp_some_ap {d : Json} {i : ℕ} {k : ℚ} (h : (mapRow d i).kp = some k) :
    (mapRow d i).ap ≠ none := by
  rw [mapRow_ap]
  match hap : toNum (firstNV d AP_KEYS) with
  | some a => simp
  | none =>
    rw [h]
    obtain ⟨h0, h9, _⟩ := mapRow_kp_shape h
    obtain ⟨hr0, hr9⟩ := jsRound_mem k h0 h9
    exact kpToAp_isSome _ hr0 hr9

theorem mapRow_ap_none_kp_none {d : Json} {i : ℕ} (h : (mapRow d i).ap = none) :
    (mapRow d i).kp = none := by
  match hk : (mapRow d i).kp with
  | none => rfl
  | some k => exact absurd h (mapRow_kp_some_ap hk)

/-- The C1 fill: an unparseable Ap together with a parseable Kp yields
`ap = kpToAp(Math.round(kp))` on the clamped `kp`. -/
theorem mapRow_ap_fill {d : Json} {i : ℕ} {q : ℚ}
    (hap : toNum (firstNV d AP_KEYS) = none)
    (hkp : toNum (firstNV d KP_KEYS) = some q) :
    ∃ k, (mapRow d i).kp = some k ∧ (mapRow d i).ap = kpToAp (jsRound k) ∧
      clamp (round1 (some q)) 0 9 = some k := by
  have hkpv : (mapRow d i).kp = clamp (round1 (some q)) 0 9 := by
    rw [mapRow_kp, hkp]
  rw [round1, clamp] at hkpv
  refine ⟨_, hkpv, ?_, by rw [round1, clamp]⟩
  rw [mapRow_ap, hap, hkpv]

theorem getNV_ne_null {j : Json} {k : String} {v : Json} (h : getNV j k = some v) :
    v ≠ .null := by
  rw [getNV] at h
  match hg : getField j k with
  | none => rw [hg] at h; cases h
  | some .null => rw [hg] at h; cases h
  | some (.bool b) => rw [hg] at h; cases h; simp
  | some (.num q) => rw [hg] at h; cases h; simp
  | some (.str s) => rw [hg] at h; cases h; simp
  | some (.arr xs) => rw [hg] at h; cases h; simp
  | some (.obj fs) => rw [hg] at h; cases h; simp

theorem firstNV_ne_null {j : Json} {v : Json} :
    ∀ {keys : List String}, firstNV j keys = some v → v ≠ .null := by
  intro keys
  induction keys with
  | nil => intro h; cases h
  | cons k ks ih =>
    intro h
    rw [firstNV] at h
    match hg : getNV j k with
    | some w => rw [hg] at h; exact (Option.some_injective _ h) ▸ getNV_ne_null hg
    | none => rw [hg] at h; exact ih h

/-- Every record the map stage produces satisfies the canonical-shape
invariant. -/
theorem canon_mapRow (d : Json) (i : ℕ) : CanonRec (stripRow (mapRow d i)) := by
  refine ⟨?_, ?_, ?_, ?_, ?_⟩
  · intro s hs
    have hs2 : (mapRow d i).date = some s := hs
    rw [mapRow_date] at hs2
    split_ifs at hs2
    exact toISO_shape hs2
  · intro k hk
    have hk2 : (mapRow d i).kp = some k := hk
    obtain ⟨h0, h9, m, hm⟩ := mapRow_kp_shape hk2
    constructor
    · rw [hm]; exact round1_tenth m
    · exact clamp_of_mem k h0 h9
  · intro hap
    exact @mapRow_ap_none_kp_none d i hap
  · show (mapRow d i).id ≠ .null
    rw [mapRow_id]
    match hf : firstNV d ["id"] with
    | some v => exact firstNV_ne_null hf
    | none =>
      match (mapRow d i).date with
      | some s => simp
      | none => simp
  · show (mapRow d i).label ≠ .null
    rw [mapRow_label]
    match hf : firstNV d ["label"] with
    | some v => exact firstNV_ne_null hf
    | none => simp

/-! ## Lemmas: the pipeline -/

theorem sortedRows_perm (x : Json) : (sortedRows x).Perm (mappedRows x) :=
  sortStable_perm rowLe (mappedRows x)

theorem sortedRows_pairwise_le (x : Json) :
    (sortedRows x).Pairwise (fun a b => rowLe a b = true) :=
  sortStable_pairwise rowLe_trans rowLe_total (mappedRows x)

theorem sortedRows_pairwise_ne (x : Json) :
    (sortedRows x).Pairwise (fun a b => a.i ≠ b.i) := by
  have hm : (mappedRows x).Pairwise (fun a b => a.i ≠ b.i) :=
    (mapRows_pairwise_lt (rowsIn x) 0).imp Nat.ne_of_lt
  exact (List.Perm.pairwise_iff (fun hab => hab ∘ Eq.symm) (sortedRows_perm x)).mpr hm

theorem dedupedRows_sublist (x : Json) : (dedupedRows x).Sublist (sortedRows x) :=
  dedupeKeyed_sublist rowKey (sortedRows x) []

theorem dedupedRows_pairwise_le (x : Json) :
    (dedupedRows x).Pairwise (fun a b => rowLe a b = true) :=
  (sortedRows_pairwise_le x).sublist (dedupedRows_sublist x)

theorem dedupedRows_pairwise_ne (x : Json) :
    (dedupedRows x).Pairwise (fun a b => a.i ≠ b.i) :=
  (sortedRows_pairwise_ne x).sublist (dedupedRows_sublist x)

theorem dedupedRows_pairwise_key (x : Json) :
    (dedupedRows x).Pairwise (fun a b => rowKey a ≠ rowKey b) :=
  dedupeKeyed_pairwise rowKey (sortedRows x) []

theorem mem_dedupedRows_iff (x : Json) (r : Row) :
    r ∈ dedupedRows x ↔
      (sortedRows x).find? (fun y => decide (rowKey y = rowKey r)) = some r := by
  rw [dedupedRows, mem_dedupeKeyed_iff]
  simp

/-- Provenance: every surviving row is the mapped image of the input row at
its own recorded index. -/
theorem mem_dedupedRows_mapRow {x : Json} {r : Row} (h : r ∈ dedupedRows x) :
    ∃ j d, (rowsIn x).get? j = some d ∧ r = mapRow d j ∧ r.i = j := by
  have h2 : r ∈ sortedRows x := (dedupedRows_sublist x).mem h
  have h3 : r ∈ mappedRows x := (sortedRows_perm x).mem_iff.mp h2
  rcases (mem_mapRows (rowsIn x) 0 r).mp h3 with ⟨j, d, hget, hr⟩
  rw [Nat.zero_add] at hr
  exact ⟨j, d, hget, hr, by rw [hr, mapRow_i]⟩

/-- Provenance at the `normalize` output level. -/
theorem mem_normalize_strip {x : Json} {r : DayRec} (h : r ∈ normalize x) :
    ∃ j d, (rowsIn x).get? j = some d ∧ r = stripRow (mapRow d j) := by
  rcases List.mem_map.mp h with ⟨row, hrow, hstrip⟩
  rcases mem_dedupedRows_mapRow hrow with ⟨j, d, hget, hr, _⟩
  exact ⟨j, d, hget, by rw [← hstrip, hr]⟩

/-- Every `normalize` output record is canonical. -/
theorem canon_normalize {x : Json} {r : DayRec} (h : r ∈ normalize x) : CanonRec r := by
  rcases mem_normalize_strip h with ⟨j, d, _, rfl⟩
  exact canon_mapRow d j

/-! ## Lemmas: re-normalizing canonical records (idempotence machinery) -/

theorem rowExt {a b : Row} (hi : a.i = b.i) (hid : a.id = b.id)
    (hdate : a.date = b.date) (hkp : a.kp = b.kp) (hap : a.ap = b.ap)
    (hf : a.f107 = b.f107) (hnote : a.note = b.note) (hlabel : a.label = b.label) :
    a = b := by
  cases a
  cases b
  dsimp at hi hid hdate hkp hap hf hnote hlabel
  rw [hi, hid, hdate, hkp, hap, hf, hnote, hlabel]

/-- Re-parsing a canonical record (reshaped as a JSON row) reproduces it
verbatim, up to the fresh sort index. -/
theorem mapRow_recToJson (r : DayRec) (h : CanonRec r) (n : ℕ) :
    mapRow (recToJson r) n =
      { i := n, id := r.id, date := r.date, kp := r.kp, ap := r.ap,
        f107 := r.f107, note := r.note, label := r.label } := by
  obtain ⟨hdate, hkp, hapnone, hid, hlabel⟩ := h
  have hgKp : getField (recToJson r) "Kp" = none := rfl
  have hgKpi : getField (recToJson r) "kp_index" = none := rfl
  have hgKpI : getField (recToJson r) "KpIndex" = none := rfl
  have hgAp : getField (recToJson r) "Ap" = none := rfl
  have hgApi : getField (recToJson r) "ap_index" = none := rfl
  have hgF : getField (recToJson r) "F107" = none := rfl
  have hgF2 : getField (recToJson r) "f10_7" = none := rfl
  have hgF3 : getField (recToJson r) "solar_flux" = none := rfl
  have hgCom : getField (recToJson r) "comment" = none := rfl
  have edate : (mapRow (recToJson r) n).date = r.date := by
    rw [mapRow_date]
    have hdF : jsGet (recToJson r) "date" =
        (match r.date with | some s => Json.str s | none => Json.null) := rfl
    rw [hdF]
    match hd : r.date with
    | none => simp [truthy]
    | some s =>
      obtain ⟨hfix, hne⟩ := hdate s hd
      have ht : truthy (Json.str s) = true := decide_eq_true hne
      rw [if_pos ht, toISO, if_neg (by simp [ht])]
      exact hfix
  have ekp : (mapRow (recToJson r) n).kp = r.kp := by
    rw [mapRow_kp]
    have hg1 : getField (recToJson r) "kp" = some (optNumJson r.kp) := rfl
    match hk : r.kp with
    | none =>
      simp [firstNV, getNV, KP_KEYS, hg1, hgKp, hgKpi, hgKpI, hk, optNumJson, toNum,
        round1, clamp]
    | some k =>
      have hchain : firstNV (recToJson r) KP_KEYS = some (Json.num k) := by
        simp [firstNV, getNV, KP_KEYS, hg1, hk, optNumJson]
      rw [hchain]
      show clamp (round1 (some k)) 0 9 = some k
      rw [(hkp k hk).1, (hkp k hk).2]
  have eap : (mapRow (recToJson r) n).ap = r.ap := by
    rw [mapRow_ap]
    have hg1 : getField (recToJson r) "ap" = some (optNumJson r.ap) := rfl
    match ha : r.ap with
    | none =>
      have hkpn : r.kp = none := hapnone ha
      have hchain : firstNV (recToJson r) AP_KEYS = none := by
        simp [firstNV, getNV, AP_KEYS, hg1, hgAp, hgApi, ha, optNumJson]
      rw [hchain]
      show (match (mapRow (recToJson r) n).kp with
            | some k => kpToAp (jsRound k) | none => none) = none
      rw [ekp, hkpn]
    | some a =>
      have hchain : firstNV (recToJson r) AP_KEYS = some (Json.num a) := by
        simp [firstNV, getNV, AP_KEYS, hg1, ha, optNumJson]
      rw [hchain]
      rfl
  have ef : (mapRow (recToJson r) n).f107 = r.f107 := by
    rw [mapRow_f107]
    have hg1 : getField (recToJson r) "f107" = some (optNumJson r.f107) := rfl
    match hf : r.f107 with
    | none =>
      simp [firstNV, getNV, F107_KEYS, hg1, hgF, hgF2, hgF3, hf, optNumJson, toNum]
    | some q =>
      simp [firstNV, getNV, F107_KEYS, hg1, hf, optNumJson, toNum]
  have eid : (mapRow (recToJson r) n).id = r.id := by
    rw [mapRow_id]
    have hg1 : getField (recToJson r) "id" = some r.id := rfl
    have hchain : firstNV (recToJson r) ["id"] = some r.id := by
      rw [firstNV, getNV, hg1]
      match hv : r.id with
      | .null => exact absurd hv hid
      | .bool b => rfl
      | .num q => rfl
      | .str s => rfl
      | .arr xs => rfl
      | .obj fs => rfl
    rw [hchain]
    rfl
  have enote : (mapRow (recToJson r) n).note = r.note := by
    rw [mapRow_note]
    have hg1 : getField (recToJson r) "note" = some r.note := rfl
    match hv : r.note with
    | .null => simp [firstNV, getNV, hg1, hgCom, hv]
    | .bool b => simp [firstNV, getNV, hg1, hv]
    | .num q => simp [firstNV, getNV, hg1, hv]
    | .str s => simp [firstNV, getNV, hg1, hv]
    | .arr xs => simp [firstNV, getNV, hg1, hv]
    | .obj fs => simp [firstNV, getNV, hg1, hv]
  have elabel : (mapRow (recToJson r) n).label = r.label := by
    rw [mapRow_label]
    have hg1 : getField (recToJson r) "label" = some r.label := rfl
    have hchain : firstNV (recToJson r) ["label"] = some r.label := by
      rw [firstNV, getNV, hg1]
      match hv : r.label with
      | .null => exact absurd hv hlabel
      | .bool b => rfl
      | .num q => rfl
      | .str s => rfl
      | .arr xs => rfl
      | .obj fs => rfl
    rw [hchain]
    rfl
  exact rowExt rfl eid edate ekp eap ef enote elabel

theorem reindexFrom_map_strip : ∀ (l : List Row) (n : ℕ),
    (reindexFrom n l).map stripRow = l.map stripRow := by
  intro l
  induction l with
  | nil => intro n; rfl
  | cons r rs ih =>
    intro n
    rw [reindexFrom, List.map_cons, List.map_cons, ih (n + 1)]
    rfl

theorem mem_reindexFrom : ∀ (l : List Row) (n : ℕ) (z : Row),
    z ∈ reindexFrom n l → (∃ r ∈ l, z.date = r.date) ∧ n ≤ z.i := by
  intro l
  induction l with
  | nil => intro n z hz; cases hz
  | cons r rs ih =>
    intro n z hz
    rw [reindexFrom, List.mem_cons] at hz
    rcases hz with rfl | hz
    · exact ⟨⟨r, List.mem_cons_self r rs, rfl⟩, Nat.le_refl n⟩
    · rcases ih (n + 1) z hz with ⟨⟨r2, hr2, hd⟩, hi⟩
      exact ⟨⟨r2, List.mem_cons_of_mem r hr2, hd⟩, Nat.le_of_succ_le hi⟩

theorem reindexFrom_pairwise_le : ∀ {l : List Row} (n : ℕ),
    l.Pairwise (fun a b => rowLe a b = true) →
    (reindexFrom n l).Pairwise (fun a b => rowLe a b = true) := by
  intro l
  induction l with
  | nil => intro n _; exact List.Pairwise.nil
  | cons r rs ih =>
    intro n hp
    rw [List.pairwise_cons] at hp
    rw [reindexFrom, List.pairwise_cons]
    refine ⟨?_, ih (n + 1) hp.2⟩
    intro z hz
    rcases mem_reindexFrom rs (n + 1) z hz with ⟨⟨r2, hr2, hd⟩, hi⟩
    have hler := hp.1 r2 hr2
    rw [rowLe] at hler ⊢
    show (match r.date, z.date with
          | some s, some t => strLe s t
          | some _, none => true
          | none, some _ => false
          | none, none => decide (n ≤ z.i)) = true
    rw [hd]
    match hrd : r.date, h2d : r2.date with
    | some s, some t => rw [hrd, h2d] at hler; exact hler
    | some s, none => rfl
    | none, some t => rw [hrd, h2d] at hler; cases hler
    | none, none => exact decide_eq_true (Nat.le_of_succ_le hi)

theorem reindexFrom_pairwise_key : ∀ {l : List Row} (n : ℕ),
    l.Pairwise (fun a b => rowKey a ≠ rowKey b) →
    (reindexFrom n l).Pairwise (fun a b => rowKey a ≠ rowKey b) := by
  intro l
  induction l with
  | nil => intro n _; exact List.Pairwise.nil
  | cons r rs ih =>
    intro n hp
    rw [List.pairwise_cons] at hp
    rw [reindexFrom, List.pairwise_cons]
    refine ⟨?_, ih (n + 1) hp.2⟩
    intro z hz
    rcases mem_reindexFrom rs (n + 1) z hz with ⟨⟨r2, hr2, hd⟩, hi⟩
    have hkr := hp.1 r2 hr2
    rw [rowKey, rowKey] at hkr ⊢
    show (match (⟨n, r.id, r.date, r.kp, r.ap, r.f107, r.note, r.label⟩ : Row).date with
          | some s => Sum.inl s
          | none => Sum.inr n) ≠ _
    rw [hd]
    match hrd : r.date, h2d : r2.date with
    | some s, some t =>
      rw [hrd, h2d] at hkr
      intro hc
      exact hkr (by rw [Sum.inl.injEq] at hc ⊢; exact hc)
    | some s, none => intro hc; cases hc
    | none, some t => intro hc; cases hc
    | none, none =>
      intro hc
      rw [Sum.inr.injEq] at hc
      omega

theorem mapRows_recToJson : ∀ (l : List Row) (n : ℕ),
    (∀ row ∈ l, CanonRec (stripRow row)) →
    mapRows n (l.map (fun row => recToJson (stripRow row))) = reindexFrom n l := by
  intro l
  induction l with
  | nil => intro n _; rfl
  | cons r rs ih =>
    intro n hc
    rw [List.map_cons, mapRows, reindexFrom,
      ih (n + 1) (fun z hz => hc z (List.mem_cons_of_mem r hz))]
    congr 1
    rw [mapRow_recToJson (stripRow r) (hc r (List.mem_cons_self r rs)) n]
    rfl

/-! ## Lemmas: assorted pipeline facts -/

theorem normalize_eq_nil_of_rowsIn {j : Json} (h : rowsIn j = []) : normalize j = [] := by
  rw [normalize, dedupedRows, sortedRows, mappedRows, h]
  rfl

theorem rowLe_some_some {a b : Row} {s t : String} (hle : rowLe a b = true)
    (hs : a.date = some s) (ht : b.date = some t) : strLe s t = true := by
  rw [rowLe, hs, ht] at hle
  exact hle

theorem rowLe_none_some {a b : Row} {t : String} (hle : rowLe a b = true)
    (hs : a.date = none) (ht : b.date = some t) : False := by
  rw [rowLe, hs, ht] at hle
  cases hle

theorem rowLe_none_none {a b : Row} (hle : rowLe a b = true)
    (hs : a.date = none) (ht : b.date = none) : a.i ≤ b.i := by
  rw [rowLe, hs, ht] at hle
  exact of_decide_eq_true hle

theorem rowKey_some {a : Row} {s : String} (hs : a.date = some s) :
    rowKey a = Sum.inl s := by
  rw [rowKey, hs]

theorem rowKey_none {a : Row} (hs : a.date = none) : rowKey a = Sum.inr a.i := by
  rw [rowKey, hs]

/-- Rows of `dedupedRows` whose source row has a null/absent id carry the
date-or-index id. -/
theorem dedupedRows_id_default {x : Json} (h : ∀ d ∈ rowsIn x, getNV d "id" = none) :
    ∀ r ∈ dedupedRows x,
      r.id = (match r.date with | some s => Json.str s | none => Json.num (r.i : ℚ)) := by
  intro r hr
  rcases mem_dedupedRows_mapRow hr with ⟨j, d, hget, hrow, hi⟩
  have hd : d ∈ rowsIn x := List.get?_mem hget
  have hnone : firstNV d ["id"] = none := by
    rw [firstNV, h d hd]
    rfl
  rw [hrow, mapRow_id, hnone, mapRow_i]
  rw [hrow, mapRow_i] at hi
  rfl

/-! ## The claims -/

/-- C1: for every input record whose `ap` field is absent or unparseable and
whose parsed `kp` is non-null, the output record has `ap` equal to the fixed
Kp→Ap lookup table at the record's `kp` rounded to the nearest integer, and
a rounded value outside 0–9 yields a null table entry; every `normalize`
output record is the mapped image of an input record. -/
theorem claim_C1_ap_fill :
    (∀ (d : Json) (i : ℕ) (q : ℚ),
        toNum (firstNV d AP_KEYS) = none →
        toNum (firstNV d KP_KEYS) = some q →
        ∃ k, (mapRow d i).kp = some k ∧ (mapRow d i).ap = kpToAp (jsRound k)) ∧
    (∀ n : ℤ, n < 0 ∨ 9 < n → kpToAp n = none) ∧
    (∀ (x : Json) (r : DayRec), r ∈ normalize x →
        ∃ j d, (rowsIn x).get? j = some d ∧ r = stripRow (mapRow d j)) := by
  refine ⟨?_, ?_, ?_⟩
  · intro d i q hap hkp
    rcases mapRow_ap_fill hap hkp with ⟨k, h1, h2, _⟩
    exact ⟨k, h1, h2⟩
  · intro n hn
    rw [kpToAp_eq_none_iff]
    exact hn
  · intro x r h
    exact mem_normalize_strip h

/-- Witness for C1 at `{kp: 100, ap: ""}`: the unparseable Ap is filled from
the clamped Kp. -/
theorem claim_C1_witness :
    toNum (firstNV (Json.obj [("kp", Json.num 100), ("ap", Json.str "")]) AP_KEYS) = none ∧
    toNum (firstNV (Json.obj [("kp", Json.num 100), ("ap", Json.str "")]) KP_KEYS) = some 100 ∧
    ∃ k, (mapRow (Json.obj [("kp", Json.num 100), ("ap", Json.str "")]) 0).kp = some k ∧
      (mapRow (Json.obj [("kp", Json.num 100), ("ap", Json.str "")]) 0).ap = kpToAp (jsRound k) ∧
    kpToAp 10 = none :=
  ⟨by decide, by decide,
    by
      rcases claim_C1_ap_fill.1 (Json.obj [("kp", Json.num 100), ("ap", Json.str "")]) 0 100
        (by decide) (by decide) with ⟨k, h1, h2⟩
      exact ⟨k, h1, h2, claim_C1_ap_fill.2.1 10 (by omega)⟩⟩

/-- C2: every record in the output of `normalize` has `kp` either null or
within `[0, 9]`; a parsed Kp is clamped into the range, never passed through
out of range and never nulled. -/
theorem claim_C2_kp_clamped :
    (∀ (x : Json) (r : DayRec), r ∈ normalize x → ∀ k, r.kp = some k → 0 ≤ k ∧ k ≤ 9) ∧
    (∀ (d : Json) (i : ℕ) (q : ℚ), toNum (firstNV d KP_KEYS) = some q →
      ∃ k, (mapRow d i).kp = some k ∧ 0 ≤ k ∧ k ≤ 9) := by
  constructor
  · intro x r h k hk
    rcases mem_normalize_strip h with ⟨j, d, _, rfl⟩
    obtain ⟨h0, h9, _⟩ := mapRow_kp_shape (show (mapRow d j).kp = some k from hk)
    exact ⟨h0, h9⟩
  · intro d i q hq
    have h : (mapRow d i).kp = clamp (round1 (some q)) 0 9 := by rw [mapRow_kp, hq]
    match hk : clamp (round1 (some q)) 0 9 with
    | none => simp [round1, clamp] at hk
    | some k =>
      obtain ⟨h0, h9, _⟩ := clamp_round1_shape (some q) k hk
      exact ⟨k, by rw [h, hk], h0, h9⟩

/-- Witness for C2 at `{kp: 100}`: the out-of-range Kp is clamped, not
nulled. -/
theorem claim_C2_witness :
    toNum (firstNV (Json.obj [("kp", Json.num 100)]) KP_KEYS) = some 100 ∧
    ∃ k, (mapRow (Json.obj [("kp", Json.num 100)]) 0).kp = some k ∧ 0 ≤ k ∧ k ≤ 9 :=
  ⟨by decide, claim_C2_kp_clamped.2 (Json.obj [("kp", Json.num 100)]) 0 100 (by decide)⟩

/-- C3: the output of `normalize` (the de-duplicated rows, which `normalize`
only strips of their sort index) is sorted by date ascending, strictly so
among dated records; undated records come after all dated records; and
undated records keep their original input order (their recorded index is
their position in the input row list). -/
theorem claim_C3_sorted (x : Json) :
    normalize x = (dedupedRows x).map stripRow ∧
    (dedupedRows x).Pairwise (fun a b =>
      (∀ s t, a.date = some s → b.date = some t → strLe s t = true ∧ s ≠ t) ∧
      (a.date = none → b.date = none) ∧
      (a.date = none → b.date = none → a.i < b.i)) ∧
    (∀ r ∈ dedupedRows x, ∃ j d, (rowsIn x).get? j = some d ∧ r = mapRow d j ∧ r.i = j) := by
  refine ⟨rfl, ?_, fun r hr => mem_dedupedRows_mapRow hr⟩
  have hall := ((dedupedRows_pairwise_le x).and (dedupedRows_pairwise_key x)).and
    (dedupedRows_pairwise_ne x)
  refine hall.imp ?_
  rintro a b ⟨⟨hle, hkey⟩, hne⟩
  refine ⟨?_, ?_, ?_⟩
  · intro s t hs ht
    refine ⟨rowLe_some_some hle hs ht, ?_⟩
    intro hst
    apply hkey
    rw [rowKey_some hs, rowKey_some ht, hst]
  · intro ha
    match hb : b.date with
    | none => rfl
    | some t => exact absurd (rowLe_none_some hle ha hb) id
  · intro ha hb
    exact Nat.lt_of_le_of_ne (rowLe_none_none hle ha hb) hne

/-- Witness for C3 at a shuffled payload with two dated and two undated
records. -/
theorem claim_C3_witness :
    strLe "2024-01-01T00:00:00.000Z" "2024-01-03T00:00:00.000Z" = true ∧
    ("2024-01-01T00:00:00.000Z" : String) ≠ "2024-01-03T00:00:00.000Z" := by
  have h := (claim_C3_sorted payloadUnsorted).2.1
  have e : dedupedRows payloadUnsorted =
      [⟨2, Json.str "2024-01-01T00:00:00.000Z", some "2024-01-01T00:00:00.000Z",
         some 2, some 7, none, Json.null, Json.str "Jan 1"⟩,
       ⟨0, Json.str "2024-01-03T00:00:00.000Z", some "2024-01-03T00:00:00.000Z",
         some 1, some 3, none, Json.null, Json.str "Jan 3"⟩,
       ⟨1, Json.num 1, none, none, none, none, Json.str "u0", Json.str "D2"⟩,
       ⟨3, Json.num 3, none, none, none, none, Json.str "u1", Json.str "D4"⟩] := rfl
  rw [e] at h
  rcases List.pairwise_cons.mp h with ⟨h1, _⟩
  exact (h1 _ (List.mem_cons_self _ _)).1 _ _ rfl rfl

/-- C4: no two `normalize` output records share a non-null date; among the
sorted rows, a dated row survives de-duplication exactly when it is the
first row bearing its date, with all its fields. -/
theorem claim_C4_dedup (x : Json) :
    (normalize x).Pairwise (fun a b => ∀ s, a.date = some s → b.date ≠ some s) ∧
    (∀ r ∈ sortedRows x, ∀ s, r.date = some s →
      (r ∈ dedupedRows x ↔
        (sortedRows x).find? (fun y => decide (y.date = some s)) = some r)) ∧
    normalize x = (dedupedRows x).map stripRow := by
  refine ⟨?_, ?_, rfl⟩
  · rw [normalize, List.pairwise_map]
    refine (dedupedRows_pairwise_key x).imp ?_
    intro a b hkey s hsa hsb
    apply hkey
    rw [rowKey_some (show a.date = some s from hsa), rowKey_some (show b.date = some s from hsb)]
  · intro r hr s hs
    have hpred : (fun y : Row => decide (y.date = some s)) =
        (fun y : Row => decide (rowKey y = rowKey r)) := by
      funext y
      rw [decide_eq_decide]
      rw [rowKey_some hs]
      match hy : y.date with
      | some t =>
        rw [rowKey_some hy]
        constructor
        · intro hc
          rw [Option.some_injective _ hc]
        · intro hc
          rw [Sum.inl.injEq] at hc
          rw [hc]
      | none =>
        rw [rowKey_none hy]
        constructor
        · intro hc
          cases hc
        · intro hc
          cases hc
    rw [hpred]
    exact mem_dedupedRows_iff x r

/-- Witness for C4 at `[{date:"2024-01-01",kp:3},{date:"2024-01-01",kp:9}]`:
the first occurrence survives and the output keeps its kp of 3. -/
theorem claim_C4_witness :
    (⟨0, Json.str "2024-01-01T00:00:00.000Z", some "2024-01-01T00:00:00.000Z",
       some 3, some 15, none, Json.null, Json.str "Jan 1"⟩ : Row) ∈
      dedupedRows payloadDupDates ∧
    (normalize payloadDupDates).map DayRec.kp = [some 3] := by
  constructor
  · apply ((claim_C4_dedup payloadDupDates).2.1 _ ?_ "2024-01-01T00:00:00.000Z" rfl).mpr
    · rfl
    · rw [show sortedRows payloadDupDates =
        [⟨0, Json.str "2024-01-01T00:00:00.000Z", some "2024-01-01T00:00:00.000Z",
           some 3, some 15, none, Json.null, Json.str "Jan 1"⟩,
         ⟨1, Json.str "2024-01-01T00:00:00.000Z", some "2024-01-01T00:00:00.000Z",
           some 9, some 400, none, Json.null, Json.str "Jan 1"⟩] from rfl]
      exact List.mem_cons_self _ _
  · decide

/-- C5: `normalize` is total and degrades gracefully: scalar payloads yield
the empty sequence, and a non-object row maps to a record whose parseable
fields are all null (with positional id and label). -/
theorem claim_C5_total_degrade :
    (∀ j : Json, isScalar j = true → normalize j = []) ∧
    (∀ (d : Json) (i : ℕ), isObj d = false →
      mapRow d i = ⟨i, Json.num (i : ℚ), none, none, none, none, Json.null,
        Json.str ("D" ++ Nat.repr (i + 1))⟩) := by
  constructor
  · intro j hj
    cases j with
    | null => rfl
    | bool b =>
      apply normalize_eq_nil_of_rowsIn
      show extractForecast (.bool b) = []
      cases b <;> rfl
    | num q =>
      apply normalize_eq_nil_of_rowsIn
      show extractForecast (.num q) = []
      rw [extractForecast]
      · split_ifs with ht hl
        · rfl
        · cases hl
        · rfl
      · intro a ha
        exact Json.noConfusion ha
    | str s =>
      apply normalize_eq_nil_of_rowsIn
      show extractForecast (.str s) = []
      rw [extractForecast]
      · split_ifs with ht hl
        · rfl
        · cases hl
        · rfl
      · intro a ha
        exact Json.noConfusion ha
    | arr xs => cases hj
    | obj fs => cases hj
  · intro d i hd
    cases d with
    | null => rfl
    | bool b => rfl
    | num q => rfl
    | str s => rfl
    | arr xs => rfl
    | obj fs => cases hd

/-- Witness for C5: a numeric payload and a string row. -/
theorem claim_C5_witness :
    normalize (Json.num 5) = [] ∧
    mapRow (Json.str "oops") 0 =
      ⟨0, Json.num 0, none, none, none, none, Json.null, Json.str "D1"⟩ :=
  ⟨claim_C5_total_degrade.1 (Json.num 5) (by decide),
   claim_C5_total_degrade.2 (Json.str "oops") 0 (by decide)⟩

/-- C6: an absent payload (`null`), an object with no recognized key
(`{}`), and in general any payload matching none of the recognized shapes
yield the empty sequence. -/
theorem claim_C6_empty_inputs :
    normalize Json.null = [] ∧
    normalize (Json.obj []) = [] ∧
    (∀ p : Json, horizonArr p = none → (∀ xs, p ≠ Json.arr xs) →
      firstArray p WRAPPER_KEYS = none → columnarRows p = none →
      dayEntriesOf p = [] → looksLikeDay p = false → normalize p = []) := by
  refine ⟨rfl, rfl, ?_⟩
  intro p h1 h2 h3 h4 h5 h6
  cases p with
  | null => rfl
  | bool b =>
    apply normalize_eq_nil_of_rowsIn
    show extractForecast (.bool b) = []
    cases b <;> rfl
  | num q =>
    apply normalize_eq_nil_of_rowsIn
    show extractForecast (.num q) = []
    rw [extractForecast]
    · split_ifs with ht hl
      · rfl
      · cases hl
      · rfl
    · intro a ha
      exact Json.noConfusion ha
  | str s =>
    apply normalize_eq_nil_of_rowsIn
    show extractForecast (.str s) = []
    rw [extractForecast]
    · split_ifs with ht hl
      · rfl
      · cases hl
      · rfl
    · intro a ha
      exact Json.noConfusion ha
  | arr xs => exact absurd rfl (h2 xs)
  | obj fs =>
    apply normalize_eq_nil_of_rowsIn
    show extractForecast (.obj fs) = []
    rw [extractForecast]
    · split_ifs with ht hl
      · rfl
      · rw [h6] at hl
        cases hl
      · rw [h1, h3, h4, h5]
    · intro a ha
      exact Json.noConfusion ha

/-- Witness for C6 at `{foo: 1}` (an object with no recognized key). -/
theorem claim_C6_witness : normalize (Json.obj [("foo", Json.num 1)]) = [] :=
  claim_C6_empty_inputs.2.2 (Json.obj [("foo", Json.num 1)]) rfl
    (fun xs h => by cases h) rfl rfl rfl rfl

/-- C7: `normalize` is idempotent through the flat-array shape: feeding its
output (reshaped as a JSON row array) back in reproduces the same canonical
records, field for field and in the same order. -/
theorem claim_C7_idempotent (x : Json) :
    normalize (Json.arr ((normalize x).map recToJson)) = normalize x := by
  have hcanon : ∀ row ∈ dedupedRows x, CanonRec (stripRow row) := by
    intro row hrow
    rcases mem_dedupedRows_mapRow hrow with ⟨j, d, _, rfl, _⟩
    exact canon_mapRow d j
  have h1 : rowsIn (Json.arr ((normalize x).map recToJson)) =
      (dedupedRows x).map (fun row => recToJson (stripRow row)) := by
    show (normalize x).map recToJson = _
    rw [normalize, List.map_map]
    rfl
  have h2 : mappedRows (Json.arr ((normalize x).map recToJson)) =
      reindexFrom 0 (dedupedRows x) := by
    rw [mappedRows, h1]
    exact mapRows_recToJson (dedupedRows x) 0 hcanon
  have h3 : sortedRows (Json.arr ((normalize x).map recToJson)) =
      reindexFrom 0 (dedupedRows x) := by
    rw [sortedRows, h2]
    exact sortStable_eq_of_pairwise (reindexFrom_pairwise_le 0 (dedupedRows_pairwise_le x))
  have h4 : dedupedRows (Json.arr ((normalize x).map recToJson)) =
      reindexFrom 0 (dedupedRows x) := by
    rw [dedupedRows, h3]
    exact dedupeKeyed_eq_self (reindexFrom_pairwise_key 0 (dedupedRows_pairwise_key x))
      (fun z hz => by simp)
  show (dedupedRows (Json.arr ((normalize x).map recToJson))).map stripRow = normalize x
  rw [h4, reindexFrom_map_strip]
  rfl

/-- C8 counterexample: on `[{id: 1}, {}]` two output records share the id
`1` (one explicit, one positional), so ids are not unique. -/
theorem claim_C8_counterexample :
    ¬ ((normalize payloadDupIds).Pairwise fun a b => a.id ≠ b.id) := by
  intro h
  rw [show normalize payloadDupIds =
      [⟨Json.num 1, none, none, none, none, Json.null, Json.str "D1"⟩,
       ⟨Json.num 1, none, none, none, none, Json.null, Json.str "D2"⟩] from rfl] at h
  rcases List.pairwise_cons.mp h with ⟨h1, _⟩
  exact h1 _ (List.mem_cons_self _ _) rfl

/-- C8 amended: when no input row supplies an id of its own (every row's id
field is absent or null), the ids of one `normalize` result are pairwise
distinct. -/
theorem claim_C8_amended (x : Json) (h : ∀ d ∈ rowsIn x, getNV d "id" = none) :
    (normalize x).Pairwise fun a b => a.id ≠ b.id := by
  rw [normalize, List.pairwise_map]
  have hids := dedupedRows_id_default h
  refine (((dedupedRows_pairwise_key x).and (dedupedRows_pairwise_ne x)).imp_of_mem ?_)
  intro a b ha hb hrel
  obtain ⟨hkey, hne⟩ := hrel
  show a.id ≠ b.id
  rw [hids a ha, hids b hb]
  match hda : a.date, hdb : b.date with
  | some s, some t =>
    intro hc
    rw [Json.str.injEq] at hc
    apply hkey
    rw [rowKey_some hda, rowKey_some hdb, hc]
  | some s, none => intro hc; cases hc
  | none, some t => intro hc; cases hc
  | none, none =>
    intro hc
    rw [Json.num.injEq] at hc
    exact hne (Nat.cast_injective hc)

/-- Witness for C8 (amended) at `[{date:"2024-01-01"}, {}]`. -/
theorem claim_C8_amended_witness :
    (normalize payloadNoIds).Pairwise fun a b => a.id ≠ b.id := by
  apply claim_C8_amended
  intro d hd
  rw [show rowsIn payloadNoIds =
      [Json.obj [("date", Json.str "2024-01-01")], Json.obj []] from rfl] at hd
  rcases List.mem_cons.mp hd with rfl | hd2
  · rfl
  · rcases List.mem_cons.mp hd2 with rfl | hd3
    · rfl
    · cases hd3

/-- C9: the horizon scenario `{horizon: [2,3,4], dates_utc: [...]}` yields
exactly three records in date order with kp 2, 3, 4, table-filled ap 7, 15,
27, and null f107 throughout. -/
theorem claim_C9_scenario :
    (normalize payloadHorizon).map DayRec.date =
      [some "2024-01-01T00:00:00.000Z", some "2024-01-02T00:00:00.000Z",
       some "2024-01-03T00:00:00.000Z"] ∧
    (normalize payloadHorizon).map DayRec.kp = [some 2, some 3, some 4] ∧
    (normalize payloadHorizon).map DayRec.ap = [some 7, some 15, some 27] ∧
    (normalize payloadHorizon).map DayRec.f107 = [none, none, none] := by
  refine ⟨?_, ?_, ?_, ?_⟩ <;> decide

/-- C10 (implicit): every non-null kp emitted by `normalize` is a multiple
of one tenth (`Math.round(kp*10)/10` is applied before clamping). -/
theorem claim_C10_tenths (x : Json) (r : DayRec) (h : r ∈ normalize x) (k : ℚ)
    (hk : r.kp = some k) : ∃ m : ℤ, k = (m : ℚ) / 10 := by
  rcases mem_normalize_strip h with ⟨j, d, _, rfl⟩
  exact (mapRow_kp_shape (show (mapRow d j).kp = some k from hk)).2.2

/-- Witness for C10 at `[{kp: 3.14}]`: the emitted kp is `3.1 = 31/10`. -/
theorem claim_C10_witness :
    (normalize payloadPi).map DayRec.kp = [some (Rat.divInt 31 10)] ∧
    ∃ m : ℤ, Rat.divInt 31 10 = (m : ℚ) / 10 := by
  constructor
  · decide
  · apply claim_C10_tenths payloadPi
      ⟨Json.num 0, none, some (Rat.divInt 31 10), some 15, none, Json.null, Json.str "D1"⟩
      ?_ (Rat.divInt 31 10) rfl
    rw [show normalize payloadPi =
        [⟨Json.num 0, none, some (Rat.divInt 31 10), some 15, none, Json.null,
          Json.str "D1"⟩] from rfl]
    exact List.mem_singleton.mpr rfl

end Forecast
